import Mathlib

/-!
Verification of the creation-lifecycle / local-persistence model of a
browser app.  The relevant source is `App.tsx` (history store, session
controller) and the generation-service wrapper (`bringToLife`,
`updateCode`, prompt selection, markdown-fence cleanup).

Conventions of the shallow embedding:
* instants (JS `Date`) are natural numbers;
* JS string truthiness (`s && t`, `a || b`) is modelled explicitly:
  `none` and `some ""` are falsy;
* fresh ids (`crypto.randomUUID()`) are oracle parameters, with a
  freshness hypothesis where a claim needs uniqueness;
* the local-storage entry `gemini_app_history` is `Option (List Creation)`
  (`none` models an absent entry, which is distinct from an empty list);
* the save-on-change effect (App.tsx lines 102-114) runs after every
  state update whose history field is a freshly produced array; when a
  state updater returns the previous array unchanged (the branch taken
  on a duplicate-id document) the effect does not re-run, which the
  corresponding operation below mirrors by leaving the storage field
  untouched.
-/

/-- Record type of the history store (components/CreationHistory.tsx,
`interface Creation`). -/
structure Creation where
  id : String
  name : String
  html : String
  originalImage : Option String
  timestamp : Nat
deriving DecidableEq

/-- App.tsx line 14: `const MAX_HISTORY_ITEMS = 30`. -/
def MAX_HISTORY_ITEMS : Nat := 30

/-- The add operation of the store, as performed by `handleGenerate`
(line 174), `handleUpdate` (line 201) and the non-duplicate import branch
(line 262): `[newCreation, ...prev].slice(0, MAX_HISTORY_ITEMS)`. -/
def addToHistory (c : Creation) (prev : List Creation) : List Creation :=
  (c :: prev).take MAX_HISTORY_ITEMS

/-- A whole sequence of add operations, oldest first. -/
def addAll (cs : List Creation) (init : List Creation) : List Creation :=
  cs.foldl (fun h c => addToHistory c h) init

/-- JS `o || fallback` for an optional string field (absent and `""` are
falsy). -/
def jsOr (o : Option String) (fallback : String) : String :=
  match o with
  | some s => if s = ("") then fallback else s
  | none => fallback

/-- JS `o || fallback` for an optional numeric timestamp (absent and `0`
are falsy). -/
def jsOrNat (o : Option Nat) (fallback : Nat) : Nat :=
  match o with
  | some t => if t = 0 then fallback else t
  | none => fallback

/-- JS truthiness of an optional string field. -/
def truthyStr (o : Option String) : Bool :=
  match o with
  | some s => s != ("")
  | none => false

/-- Shape of a parsed import/export JSON document (every field may be
absent in an arbitrary document; `handleImportFile` validates `html` and
`name`). -/
structure ImportDoc where
  id : Option String
  name : Option String
  html : Option String
  originalImage : Option String
  timestamp : Option Nat
deriving DecidableEq

/-- App.tsx line 251: `if (parsed.html && parsed.name)`. -/
def importDocValid (d : ImportDoc) : Bool :=
  truthyStr d.html && truthyStr d.name

/-- App.tsx lines 252-256: build the imported record, defaulting the id
to a fresh uuid and the timestamp to the current instant via JS `||`. -/
def decodeImportDoc (d : ImportDoc) (freshId : String) (now : Nat) : Creation :=
  { id := jsOr d.id freshId
    name := (d.name).getD ("")
    html := (d.html).getD ("")
    originalImage := d.originalImage
    timestamp := jsOrNat d.timestamp now }

/-- LivePreview `handleExport` (lines 576-588): serialize the full
record; modelled up to JSON encoding, which round-trips every field. -/
def exportCreation (c : Creation) : ImportDoc :=
  { id := some c.id
    name := some c.name
    html := some c.html
    originalImage := c.originalImage
    timestamp := some c.timestamp }

/-- The mutable state of the session controller: the active slot, the
generating flag, the in-memory history and the persisted entry. -/
structure AppState where
  active : Option Creation
  isGenerating : Bool
  history : List Creation
  storage : Option (List Creation)
deriving DecidableEq

/-- The save effect (App.tsx lines 102-114): persists the history when it
is non-empty, does nothing when it is empty. -/
def applySaveEffect (s : AppState) : AppState :=
  if s.history = [] then s else { s with storage := some s.history }

/-- Synchronous entry of `handleGenerate` (lines 147-150):
`setIsGenerating(true); setActiveCreation(null)`. -/
def startGenerate (s : AppState) : AppState :=
  { s with isGenerating := true, active := none }

/-- Successful completion of `handleGenerate` (lines 161-181): when the
returned html is truthy, wrap it in a fresh record, set it active,
prepend it to the bounded history and run the save effect. -/
def finishGenerate (newId : String) (nm : String) (html : String)
    (img : Option String) (now : Nat) (s : AppState) : AppState :=
  if html = ("") then { s with isGenerating := false }
  else
    applySaveEffect
      { s with
        active := some ⟨newId, nm, html, img, now⟩
        history := addToHistory ⟨newId, nm, html, img, now⟩ s.history
        isGenerating := false }

/-- Synchronous entry of `handleUpdate` (lines 184-187): bail out when
nothing is active, otherwise raise the generating flag.  The active slot
is NOT cleared here. -/
def startUpdate (s : AppState) : AppState :=
  match s.active with
  | none => s
  | some _ => { s with isGenerating := true }

/-- App.tsx lines 192-198: the revision record derived from the active
one: fresh id, a name suffix marking the version, the new html and a new
timestamp; all other fields are carried over. -/
def reviseRecord (active : Creation) (newId : String) (newHtml : String)
    (now : Nat) : Creation :=
  { active with
    id := newId
    name := active.name ++ (" (v2)")
    html := newHtml
    timestamp := now }

/-- Successful completion of `handleUpdate` (lines 189-208): when html is
truthy, prepend the revision to the bounded history, set it active and
run the save effect. -/
def finishUpdate (newId : String) (newHtml : String) (now : Nat)
    (s : AppState) : AppState :=
  match s.active with
  | none => s
  | some active =>
    if newHtml = ("") then { s with isGenerating := false }
    else
      applySaveEffect
        { s with
          active := some (reviseRecord active newId newHtml now)
          history := addToHistory (reviseRecord active newId newHtml now) s.history
          isGenerating := false }

/-- `handleDeleteCreation` (lines 220-234): clear the active slot when it
is the deleted record, filter the history, remove the persisted entry
when the result is empty, then the save effect persists a non-empty
result. -/
def deleteOp (id : String) (s : AppState) : AppState :=
  applySaveEffect
    { active :=
        match s.active with
        | some a => if a.id = id then none else some a
        | none => none
      isGenerating := s.isGenerating
      history := s.history.filter (fun c => c.id != id)
      storage :=
        if s.history.filter (fun c => c.id != id) = [] then none
        else s.storage }

/-- Whether `handleImportFile` rejects the document with the
"无效的文件格式。" alert (line 268). -/
def importError (d : ImportDoc) : Bool :=
  !(importDocValid d)

/-- `handleImportFile` (lines 245-273): validate, decode, add to the
history unless a record with the same id is already there, and set the
decoded record active; an invalid document changes nothing.  In the
duplicate branch the history updater returns the previous array itself,
so the save effect does not re-run and the storage is untouched. -/
def importOp (d : ImportDoc) (freshId : String) (now : Nat)
    (s : AppState) : AppState :=
  if importDocValid d then
    if s.history.any (fun x => x.id = (decodeImportDoc d freshId now).id) then
      { s with active := some (decodeImportDoc d freshId now) }
    else
      applySaveEffect
        { s with
          active := some (decodeImportDoc d freshId now)
          history := addToHistory (decodeImportDoc d freshId now) s.history }
  else s

/-- The mutating operations of the store, as completed calls. -/
inductive MutOp where
  | generate (newId nm html : String) (img : Option String) (now : Nat)
  | revise (newId newHtml : String) (now : Nat)
  | remove (id : String)
  | importFile (d : ImportDoc) (freshId : String) (now : Nat)
deriving DecidableEq

def applyOp : MutOp → AppState → AppState
  | .generate i n h img t, s => finishGenerate i n h img t s
  | .revise i h t, s => finishUpdate i h t s
  | .remove id, s => deleteOp id s
  | .importFile d f t, s => importOp d f t s

/-- The persisted entry reflects the in-memory collection: an empty
collection corresponds to an absent entry, a non-empty one to a stored
copy of exactly that list. -/
def storageReflects (s : AppState) : Bool :=
  if s.history = [] then s.storage == none else s.storage == some s.history

/-- The backtick character, written by code point to keep it out of the
source text. -/
def backtick : Char := Char.ofNat 96

/-- Three backticks: the markdown fence. -/
def fence : List Char := [backtick, backtick, backtick]

/-- The four characters of the fence language tag. -/
def htmlTag : List Char := ['h', 't', 'm', 'l']

/-- An opening fence tagged with the markup language. -/
def fenceHtml : List Char := fence ++ htmlTag

/-- The character class of the JS regex `\s`. -/
def isJsSpace (c : Char) : Bool :=
  c == ' ' || c == '\t' || c == '\n' || c == '\r' ||
  c == Char.ofNat 11 || c == Char.ofNat 12 || c == Char.ofNat 160 ||
  c == Char.ofNat 0x1680 ||
  (0x2000 ≤ c.toNat && c.toNat ≤ 0x200a) ||
  c == Char.ofNat 0x2028 || c == Char.ofNat 0x2029 ||
  c == Char.ofNat 0x202f || c == Char.ofNat 0x205f ||
  c == Char.ofNat 0x3000 || c == Char.ofNat 0xfeff

/-- Whether the text begins with a fence (`take 3` is the fence). -/
def startsWithFence (cs : List Char) : Bool :=
  cs.take 3 == fence

/-- Whether the text ends with a fence (its last three characters). -/
def endsWithFence (cs : List Char) : Bool :=
  cs.reverse.take 3 == fence

/-- One application of `.replace(/^` fence `html\s*&#47;, '')`: drop a
tagged opening fence together with the whitespace that follows it. -/
def stripTaggedOpen (cs : List Char) : List Char :=
  if cs.take 7 == fenceHtml then (cs.drop 7).dropWhile isJsSpace else cs

/-- One application of the untagged opening-fence replace. -/
def stripOpen (cs : List Char) : List Char :=
  if startsWithFence cs then (cs.drop 3).dropWhile isJsSpace else cs

/-- One application of the closing-fence replace: drop the last three
characters when they are a fence. -/
def stripClose (cs : List Char) : List Char :=
  if endsWithFence cs then (cs.reverse.drop 3).reverse else cs

/-- The response cleanup of `bringToLife` (line 111) and `updateCode`
(line 141): the three replaces in source order. -/
def cleanFencesL (cs : List Char) : List Char :=
  stripClose (stripOpen (stripTaggedOpen cs))

/-- String form of the cleanup transform. -/
def cleanFences (s : String) : String :=
  String.mk (cleanFencesL s.data)

/-- The fixed failure placeholder of `bringToLife` (line 108). -/
def failPlaceholder : String := "<!-- 生成内容失败 -->"

/-- `bringToLife` from the response text to the returned string
(lines 108-113): placeholder fallback, then fence cleanup. -/
def bringToLifeOutput (t : Option String) : String :=
  cleanFences (jsOr t failPlaceholder)

/-- `updateCode` from the response text to the returned string
(lines 139-143): `currentHtml` fallback, then fence cleanup. -/
def updateCodeOutput (t : Option String) (currentHtml : String) : String :=
  cleanFences (jsOr t currentHtml)

/-- The default demo prompt of `bringToLife` (line 83). -/
def defaultDemoPrompt : String := "创建一个展示你能力的演示应用。"

/-- The fixed analysis directive used when a file is attached
(line 82). -/
def fileAnalysisDirective : String :=
  "Analyze this image/document. Detect what functionality is implied. If it is a real-world object (like a desk), gamify it (e.g., a cleanup game). Build a fully interactive web app. IMPORTANT: Do NOT use external image URLs. Recreate the visuals using CSS, SVGs, or Emojis. Ensure all user-facing text is in Simplified Chinese."

/-- The `finalPrompt` selection of `bringToLife` (lines 81-83):
`fileBase64 ? directive : (prompt || default)`. -/
def finalPrompt (promptText : String) (fileBase64 : Option String) : String :=
  if truthyStr fileBase64 then fileAnalysisDirective
  else if promptText = ("") then defaultDemoPrompt else promptText

lemma take_append_take {α : Type} (a l : List α) (n : Nat) :
    (a ++ l.take n).take n = (a ++ l).take n := by
  rw [List.take_append_eq_append_take, List.take_append_eq_append_take,
    List.take_take, Nat.min_eq_left (Nat.sub_le n a.length)]

lemma addAll_eq (cs init : List Creation) (h : cs ≠ []) :
    addAll cs init = (cs.reverse ++ init).take MAX_HISTORY_ITEMS := by
  induction cs generalizing init with
  | nil => exact absurd rfl h
  | cons c rest ih =>
    by_cases hr : rest = []
    · subst hr
      simp [addAll, addToHistory]
    · have h1 : addAll (c :: rest) init = addAll rest (addToHistory c init) := rfl
      rw [h1, ih (addToHistory c init) hr, addToHistory, take_append_take]
      simp [List.append_assoc]

lemma addAll_head (cs init : List Creation) (h : cs ≠ []) :
    (addAll cs init).head? = some (cs.getLast h) := by
  rw [addAll_eq cs init h]
  obtain ⟨a, t, hrev⟩ :=
    List.exists_cons_of_ne_nil (fun hn => h (List.reverse_eq_nil_iff.mp hn))
  rw [hrev, List.cons_append,
    show MAX_HISTORY_ITEMS = 29 + 1 from rfl, List.take_succ_cons, List.head?_cons]
  have hl : cs.getLast? = some a := by
    rw [← List.head?_reverse, hrev, List.head?_cons]
  rw [List.getLast?_eq_getLast cs h] at hl
  exact congrArg some (Option.some_injective _ hl).symm

/-- C1: every nonempty sequence of add operations (fresh generation,
revision, import all perform the same `addToHistory`) yields a history of
at most 30 records, equal to the most-recent-first listing of the added
records followed by the prior collection, truncated to the bound; the
most recently added record is at the head, and every intermediate
collection also respects the bound. -/
theorem addAll_spec (cs init : List Creation) (h : cs ≠ []) :
    (addAll cs init).length ≤ MAX_HISTORY_ITEMS ∧
    addAll cs init = (cs.reverse ++ init).take MAX_HISTORY_ITEMS ∧
    (addAll cs init).head? = some (cs.getLast h) ∧
    ∀ pre suf, cs = pre ++ suf → pre ≠ [] →
      (addAll pre init).length ≤ MAX_HISTORY_ITEMS := by
  refine ⟨?_, addAll_eq cs init h, addAll_head cs init h, ?_⟩
  · rw [addAll_eq cs init h, List.length_take]
    exact Nat.min_le_left _ _
  · intro pre suf hps hpre
    rw [addAll_eq pre init hpre, List.length_take]
    exact Nat.min_le_left _ _

theorem addAll_spec_witness :
    (addAll [⟨("a"), ("A"), ("<p>a</p>"), none, 1⟩,
             ⟨("b"), ("B"), ("<p>b</p>"), none, 2⟩] []).head?
      = some ⟨("b"), ("B"), ("<p>b</p>"), none, 2⟩ := by
  exact (addAll_spec _ [] (by decide)).2.2.1

lemma applySaveEffect_history (s : AppState) :
    (applySaveEffect s).history = s.history := by
  unfold applySaveEffect
  split <;> rfl

lemma applySaveEffect_active (s : AppState) :
    (applySaveEffect s).active = s.active := by
  unfold applySaveEffect
  split <;> rfl

/-- C6: removing an id that belongs to no record of the collection leaves
the collection unchanged. -/
theorem remove_absent_spec (id : String) (s : AppState)
    (h : ∀ c ∈ s.history, c.id ≠ id) :
    (deleteOp id s).history = s.history := by
  have hf : s.history.filter (fun c => c.id != id) = s.history :=
    List.filter_eq_self.mpr (fun c hc => by simp [h c hc])
  simp [deleteOp, applySaveEffect_history, hf]

theorem remove_absent_spec_witness :
    (deleteOp ("zz") ⟨none, false, [⟨("a"), ("A"), ("<x/>"), none, 1⟩], none⟩).history
      = [⟨("a"), ("A"), ("<x/>"), none, 1⟩] := by
  exact remove_absent_spec ("zz") _ (by decide)

lemma addToHistory_cons (c : Creation) (l : List Creation) :
    addToHistory c l = c :: l.take 29 := by
  rw [addToHistory, show MAX_HISTORY_ITEMS = 29 + 1 from rfl, List.take_succ_cons]

lemma addToHistory_ne_nil (c : Creation) (l : List Creation) :
    addToHistory c l ≠ [] := by
  rw [addToHistory_cons]
  exact List.cons_ne_nil _ _

/-- C2 counterexample: with the history at its 30-record capacity and the
active record sitting at the last position (index 29), a successful
revision evicts the original record from the collection, so the original
does not remain at its prior position plus one. -/
theorem revise_capacity_cex :
    ¬ ((⟨("29"), ("X"), ("<p/>"), none, 29⟩ : Creation) ∈
      (finishUpdate ("fresh") ("<q/>") 100
        ⟨some ⟨("29"), ("X"), ("<p/>"), none, 29⟩, true,
          (List.range MAX_HISTORY_ITEMS).map
            (fun i => ⟨toString i, ("X"), ("<p/>"), none, i⟩), none⟩).history) := by
  decide

/-- C2 (amended): a successful revision of the active record yields a
record with the given fresh id (distinct from every existing id by
freshness of the uuid), the versioned name, the new html and the new
timestamp; it becomes the new active record and the new head of history,
and the original record survives unchanged at its prior position plus one
PROVIDED that prior position is below 29 — at position 29 of a full
history the original is evicted by the 30-record cap. -/
theorem finishUpdate_spec (active : Creation) (hist : List Creation)
    (st : Option (List Creation)) (g : Bool) (newId newHtml : String)
    (now : Nat) (i : Nat)
    (hmem : hist[i]? = some active)
    (hfresh : ∀ c ∈ hist, c.id ≠ newId)
    (hi : i + 1 < MAX_HISTORY_ITEMS)
    (hhtml : newHtml ≠ ("")) :
    (finishUpdate newId newHtml now ⟨some active, g, hist, st⟩).active
      = some (reviseRecord active newId newHtml now) ∧
    (reviseRecord active newId newHtml now).id = newId ∧
    (∀ c ∈ hist, c.id ≠ (reviseRecord active newId newHtml now).id) ∧
    (reviseRecord active newId newHtml now).name = active.name ++ (" (v2)") ∧
    (reviseRecord active newId newHtml now).html = newHtml ∧
    (reviseRecord active newId newHtml now).timestamp = now ∧
    (finishUpdate newId newHtml now ⟨some active, g, hist, st⟩).history.head?
      = some (reviseRecord active newId newHtml now) ∧
    (finishUpdate newId newHtml now ⟨some active, g, hist, st⟩).history[i + 1]?
      = some active := by
  have hstate : finishUpdate newId newHtml now ⟨some active, g, hist, st⟩
      = applySaveEffect ⟨some (reviseRecord active newId newHtml now), false,
          addToHistory (reviseRecord active newId newHtml now) hist, st⟩ := by
    simp [finishUpdate, hhtml]
  refine ⟨?_, rfl, fun c hc => hfresh c hc, rfl, rfl, rfl, ?_, ?_⟩
  · rw [hstate, applySaveEffect_active]
  · rw [hstate, applySaveEffect_history, addToHistory_cons, List.head?_cons]
  · rw [hstate, applySaveEffect_history, addToHistory_cons,
      List.getElem?_cons_succ]
    have hi29 : i < 29 := by
      rw [show MAX_HISTORY_ITEMS = 30 from rfl] at hi
      omega
    rw [List.getElem?_take_of_lt hi29]
    exact hmem

theorem finishUpdate_spec_witness :
    (finishUpdate ("n") ("<q/>") 5
      ⟨some ⟨("a"), ("X"), ("<p/>"), none, 1⟩, true,
        [⟨("a"), ("X"), ("<p/>"), none, 1⟩], none⟩).history[(0 : Nat) + 1]?
      = some ⟨("a"), ("X"), ("<p/>"), none, 1⟩ := by
  exact (finishUpdate_spec _ _ none true ("n") ("<q/>") 5 0
    (by decide) (by decide) (by decide) (by decide)).2.2.2.2.2.2.2

/-- C8 counterexample: a revise request raises the generating flag but
does not clear the active slot, so the Generating state reached from a
revise request still holds the prior creation. -/
theorem startUpdate_keeps_active_cex :
    (startUpdate ⟨some ⟨("a"), ("X"), ("<p/>"), none, 1⟩, false,
        [⟨("a"), ("X"), ("<p/>"), none, 1⟩], none⟩).isGenerating = true ∧
    (startUpdate ⟨some ⟨("a"), ("X"), ("<p/>"), none, 1⟩, false,
        [⟨("a"), ("X"), ("<p/>"), none, 1⟩], none⟩).active ≠ none := by
  decide

/-- C8 (amended): entering the Generating state on a create request
clears the active slot while the request is in flight, but entering it on
a revise request keeps the prior creation in the active slot; only the
generating flag marks the in-flight revision. -/
theorem generating_active_spec (s : AppState) (c : Creation)
    (h : s.active = some c) :
    (startGenerate s).isGenerating = true ∧
    (startGenerate s).active = none ∧
    (startUpdate s).isGenerating = true ∧
    (startUpdate s).active = some c := by
  refine ⟨rfl, rfl, ?_, ?_⟩ <;> simp [startUpdate, h]

theorem generating_active_spec_witness :
    (startUpdate ⟨some ⟨("a"), ("X"), ("<p/>"), none, 1⟩, false, [], none⟩).active
      = some ⟨("a"), ("X"), ("<p/>"), none, 1⟩ := by
  exact (generating_active_spec _ _ rfl).2.2.2

lemma take3_of_take7_eq (cs : List Char) (h : cs.take 7 = fenceHtml) :
    cs.take 3 = fence := by
  have h3 : (cs.take 7).take 3 = cs.take 3 := by
    rw [List.take_take]
    norm_num
  rw [← h3, h]
  rfl

lemma cleanFencesL_id (cs : List Char) (hs : startsWithFence cs = false)
    (he : endsWithFence cs = false) : cleanFencesL cs = cs := by
  have h7 : (cs.take 7 == fenceHtml) = false := by
    apply beq_eq_false_iff_ne.mpr
    intro h
    rw [startsWithFence, take3_of_take7_eq cs h] at hs
    simp at hs
  simp [cleanFencesL, stripTaggedOpen, stripOpen, stripClose, h7, hs, he]

lemma dropWhile_all_append (p : Char → Bool) (ws l : List Char)
    (h : ∀ c ∈ ws, p c = true) : (ws ++ l).dropWhile p = l.dropWhile p := by
  induction ws with
  | nil => rfl
  | cons a t ih =>
    rw [List.cons_append, List.dropWhile_cons_of_pos (h a (List.mem_cons_self a t))]
    exact ih (fun c hc => h c (List.mem_cons_of_mem a hc))

lemma startsWithFence_cons_ne (c : Char) (t : List Char) (hc : c ≠ backtick) :
    startsWithFence (c :: t) = false := by
  apply beq_eq_false_iff_ne.mpr
  rw [show (3 : Nat) = 2 + 1 from rfl, List.take_succ_cons]
  intro h
  rw [fence] at h
  exact hc (List.head_eq_of_cons_eq h)

lemma stripClose_append_fence (cs : List Char) : stripClose (cs ++ fence) = cs := by
  have hrev : (cs ++ fence).reverse = fence ++ cs.reverse := by
    rw [List.reverse_append]
    rfl
  have hc : endsWithFence (cs ++ fence) = true := by
    rw [endsWithFence, hrev, List.take_left' (by rfl)]
    exact beq_self_eq_true fence
  rw [stripClose, if_pos hc, hrev, List.drop_left' (by rfl), List.reverse_reverse]

lemma stripTaggedOpen_prepend (ws rest : List Char)
    (hws : ∀ c ∈ ws, isJsSpace c = true) :
    stripTaggedOpen (fenceHtml ++ (ws ++ rest)) = rest.dropWhile isJsSpace := by
  have h7 : ((fenceHtml ++ (ws ++ rest)).take 7 == fenceHtml) = true := by
    rw [List.take_left' (by rfl)]
    exact beq_self_eq_true fenceHtml
  rw [stripTaggedOpen, if_pos h7, List.drop_left' (by rfl),
    dropWhile_all_append isJsSpace ws rest hws]

lemma dropWhile_cs_fence (cs : List Char)
    (hhead : ∀ c ∈ cs.take 1, isJsSpace c = false ∧ c ≠ backtick) :
    (cs ++ fence).dropWhile isJsSpace = cs ++ fence := by
  cases cs with
  | nil => decide
  | cons a t =>
    have ha := hhead a (by simp)
    rw [List.cons_append, List.dropWhile_cons_of_neg (by simp [ha.1])]

lemma stripOpenClose_cs_fence (cs : List Char)
    (hhead : ∀ c ∈ cs.take 1, isJsSpace c = false ∧ c ≠ backtick) :
    stripClose (stripOpen (cs ++ fence)) = cs := by
  cases cs with
  | nil => decide
  | cons a t =>
    have ha := hhead a (by simp)
    have hso : stripOpen ((a :: t) ++ fence) = (a :: t) ++ fence := by
      rw [stripOpen, if_neg]
      rw [List.cons_append, startsWithFence_cons_ne a (t ++ fence) ha.2]
      simp
    rw [hso, stripClose_append_fence]

lemma cleanFencesL_tagged (cs ws : List Char)
    (hws : ∀ c ∈ ws, isJsSpace c = true)
    (hhead : ∀ c ∈ cs.take 1, isJsSpace c = false ∧ c ≠ backtick) :
    cleanFencesL (fenceHtml ++ (ws ++ (cs ++ fence))) = cs := by
  rw [cleanFencesL, stripTaggedOpen_prepend ws (cs ++ fence) hws,
    dropWhile_cs_fence cs hhead]
  exact stripOpenClose_cs_fence cs hhead

lemma take4_append_fence (B : List Char) (h : (B ++ fence).take 4 = htmlTag) :
    B.take 4 = htmlTag := by
  by_cases h4 : 4 ≤ B.length
  · rw [List.take_append_eq_append_take, Nat.sub_eq_zero_of_le h4] at h
    simpa using h
  · push_neg at h4
    have hB : B.take 4 = B := List.take_of_length_le (by omega)
    rw [List.take_append_eq_append_take, hB] at h
    obtain ⟨m, hm⟩ : ∃ m, 4 - B.length = m + 1 := ⟨3 - B.length, by omega⟩
    rw [hm] at h
    have hbt : backtick ∈ B ++ fence.take (m + 1) := by
      apply List.mem_append_right
      rw [show fence = backtick :: [backtick, backtick] from rfl, List.take_succ_cons]
      exact List.mem_cons_self _ _
    rw [h] at hbt
    exact absurd hbt (by decide)

lemma cleanFencesL_untagged (cs ws : List Char)
    (hws : ∀ c ∈ ws, isJsSpace c = true)
    (hhead : ∀ c ∈ cs.take 1, isJsSpace c = false ∧ c ≠ backtick)
    (hnotag : (ws ++ cs).take 4 ≠ htmlTag) :
    cleanFencesL (fence ++ (ws ++ (cs ++ fence))) = cs := by
  have h7 : ((fence ++ (ws ++ (cs ++ fence))).take 7 == fenceHtml) = false := by
    apply beq_eq_false_iff_ne.mpr
    intro h
    rw [List.take_append_eq_append_take, List.take_of_length_le (by decide),
      show (7 : Nat) - fence.length = 4 from rfl, fenceHtml] at h
    have h2 := List.append_cancel_left h
    rw [← List.append_assoc] at h2
    exact hnotag (take4_append_fence (ws ++ cs) h2)
  have hno : stripTaggedOpen (fence ++ (ws ++ (cs ++ fence)))
      = fence ++ (ws ++ (cs ++ fence)) := by
    rw [stripTaggedOpen, if_neg]
    simp [h7]
  have hso : stripOpen (fence ++ (ws ++ (cs ++ fence)))
      = (cs ++ fence).dropWhile isJsSpace := by
    have hsf : startsWithFence (fence ++ (ws ++ (cs ++ fence))) = true := by
      rw [startsWithFence, List.take_left' (by rfl)]
      exact beq_self_eq_true fence
    rw [stripOpen, if_pos hsf, List.drop_left' (by rfl),
      dropWhile_all_append isJsSpace ws _ hws]
  rw [cleanFencesL, hno, hso, dropWhile_cs_fence cs hhead,
    stripClose_append_fence]

/-- C3: the cleanup transform of the generation/revision responses is the
identity on text that neither starts nor ends with a fence (hence it is
idempotent on clean text), and it fully strips a code-fence wrapper: a
tagged opening fence, any whitespace after it, the content and a closing
fence leave exactly the content, and likewise for an untagged opening
fence as long as the wrapped text does not itself look tagged; the
content must not begin with whitespace or a backtick, which would have
been absorbed into the opening match. -/
theorem cleanFences_spec (cs ws : List Char) :
    (startsWithFence cs = false → endsWithFence cs = false →
      cleanFencesL cs = cs ∧ cleanFencesL (cleanFencesL cs) = cleanFencesL cs) ∧
    ((∀ c ∈ ws, isJsSpace c = true) →
      (∀ c ∈ cs.take 1, isJsSpace c = false ∧ c ≠ backtick) →
      cleanFencesL (fenceHtml ++ (ws ++ (cs ++ fence))) = cs ∧
      ((ws ++ cs).take 4 ≠ htmlTag →
        cleanFencesL (fence ++ (ws ++ (cs ++ fence))) = cs)) := by
  constructor
  · intro hs he
    have h := cleanFencesL_id cs hs he
    exact ⟨h, by rw [h, h]⟩
  · intro hws hhead
    exact ⟨cleanFencesL_tagged cs ws hws hhead,
      fun hn => cleanFencesL_untagged cs ws hws hhead hn⟩

theorem cleanFences_spec_witness :
    cleanFencesL (fenceHtml ++ ((" ").data ++ (("<p>hi</p>").data ++ fence)))
      = ("<p>hi</p>").data ∧
    cleanFencesL (("hello").data) = ("hello").data := by
  refine ⟨((cleanFences_spec (("<p>hi</p>").data) ((" ").data)).2
    (by decide) (by decide)).1, ?_⟩
  exact ((cleanFences_spec (("hello").data) []).1 (by decide) (by decide)).1

/-- C4: exporting a record that is already in the collection and
re-importing the exported document leaves both the collection and its
persisted form unchanged (no duplicate is added), while the decoded
record — carrying the same id — is still returned and set active; when
the record's timestamp is a positive instant the decoded record is the
original record itself.  The record is assumed well formed (non-empty id,
name and html), as every record the application creates is. -/
theorem export_import_spec (c : Creation) (fid : String) (now : Nat)
    (s : AppState) (hmem : c ∈ s.history) (hid : c.id ≠ (""))
    (hname : c.name ≠ ("")) (hhtml : c.html ≠ ("")) :
    (importOp (exportCreation c) fid now s).history = s.history ∧
    (importOp (exportCreation c) fid now s).storage = s.storage ∧
    (importOp (exportCreation c) fid now s).active
      = some (decodeImportDoc (exportCreation c) fid now) ∧
    (decodeImportDoc (exportCreation c) fid now).id = c.id ∧
    (0 < c.timestamp → decodeImportDoc (exportCreation c) fid now = c) := by
  have hvalid : importDocValid (exportCreation c) = true := by
    simp [importDocValid, exportCreation, truthyStr, hname, hhtml]
  have hdid : (decodeImportDoc (exportCreation c) fid now).id = c.id := by
    simp [decodeImportDoc, exportCreation, jsOr, hid]
  have hany : s.history.any
      (fun x => x.id = (decodeImportDoc (exportCreation c) fid now).id) = true := by
    rw [List.any_eq_true]
    exact ⟨c, hmem, by simp [hdid]⟩
  refine ⟨?_, ?_, ?_, hdid, ?_⟩
  · simp [importOp, hvalid, hany]
  · simp [importOp, hvalid, hany]
  · simp [importOp, hvalid, hany]
  · intro hts
    have : c.timestamp ≠ 0 := Nat.pos_iff_ne_zero.mp hts
    simp [decodeImportDoc, exportCreation, jsOr, jsOrNat, hid, this]

theorem export_import_spec_witness :
    (importOp (exportCreation ⟨("a"), ("A"), ("<p/>"), none, 5⟩) ("f") 9
      ⟨none, false, [⟨("a"), ("A"), ("<p/>"), none, 5⟩],
        some [⟨("a"), ("A"), ("<p/>"), none, 5⟩]⟩).history
      = [⟨("a"), ("A"), ("<p/>"), none, 5⟩] := by
  exact (export_import_spec ⟨("a"), ("A"), ("<p/>"), none, 5⟩ ("f") 9 _
    (by decide) (by decide) (by decide) (by decide)).1

/-- C5: an imported document lacking a non-empty html field or lacking a
non-empty name field is rejected with the invalid-format message and the
whole state — in particular the history collection — is left
unchanged. -/
theorem import_invalid_spec (d : ImportDoc) (fid : String) (now : Nat)
    (s : AppState)
    (h : truthyStr d.html = false ∨ truthyStr d.name = false) :
    importError d = true ∧ importOp d fid now s = s := by
  have hv : importDocValid d = false := by
    rcases h with h | h <;> simp [importDocValid, h]
  exact ⟨by simp [importError, hv], by simp [importOp, hv]⟩

theorem import_invalid_spec_witness :
    importOp ⟨none, some ("N"), none, none, none⟩ ("f") 0
      ⟨none, false, [⟨("a"), ("A"), ("<p/>"), none, 5⟩], none⟩
      = ⟨none, false, [⟨("a"), ("A"), ("<p/>"), none, 5⟩], none⟩ := by
  exact (import_invalid_spec ⟨none, some ("N"), none, none, none⟩ ("f") 0 _
    (Or.inl rfl)).2

lemma storageReflects_applySave (s : AppState) (h : s.history ≠ []) :
    storageReflects (applySaveEffect s) = true := by
  rw [applySaveEffect, if_neg h, storageReflects]
  simp [h]

lemma storageReflects_same (s : AppState) (a : Option Creation) (g : Bool) :
    storageReflects ⟨a, g, s.history, s.storage⟩ = storageReflects s := by
  rw [storageReflects, storageReflects]

lemma deleteOp_history (id : String) (s : AppState) :
    (deleteOp id s).history = s.history.filter (fun c => c.id != id) := by
  rw [deleteOp, applySaveEffect_history]

/-- C7: every completed mutating operation leaves the persisted entry
reflecting the in-memory collection (an absent entry exactly when the
collection is empty, a stored copy of the collection otherwise); in
particular a remove that empties the collection removes the persisted
entry entirely, and a remove with a non-empty result persists the
filtered list. -/
theorem persist_spec (op : MutOp) (s : AppState)
    (h : storageReflects s = true) :
    storageReflects (applyOp op s) = true ∧
    (∀ id, (deleteOp id s).history = [] → (deleteOp id s).storage = none) ∧
    (∀ id, (deleteOp id s).history ≠ [] →
      (deleteOp id s).storage = some ((deleteOp id s).history)) := by
  refine ⟨?_, ?_, ?_⟩
  · cases op with
    | generate i n html img t =>
      rw [applyOp, finishGenerate]
      by_cases hh : html = ("")
      · rw [if_pos hh]
        rw [show ({ s with isGenerating := false } : AppState)
          = ⟨s.active, false, s.history, s.storage⟩ from rfl]
        rw [storageReflects_same]
        exact h
      · rw [if_neg hh]
        exact storageReflects_applySave _ (addToHistory_ne_nil _ _)
    | revise i html t =>
      cases ha : s.active with
      | none =>
        have hs : applyOp (.revise i html t) s = s := by
          simp [applyOp, finishUpdate, ha]
        rw [hs]
        exact h
      | some a =>
        by_cases hh : html = ("")
        · have hs : applyOp (.revise i html t) s
              = ⟨some a, false, s.history, s.storage⟩ := by
            simp [applyOp, finishUpdate, ha, hh]
          rw [hs, storageReflects_same]
          exact h
        · have hs : applyOp (.revise i html t) s
              = applySaveEffect ⟨some (reviseRecord a i html t), false,
                  addToHistory (reviseRecord a i html t) s.history, s.storage⟩ := by
            simp [applyOp, finishUpdate, ha, hh]
          rw [hs]
          exact storageReflects_applySave _ (addToHistory_ne_nil _ _)
    | remove id =>
      rw [applyOp, deleteOp]
      by_cases hf : s.history.filter (fun c => c.id != id) = []
      · rw [applySaveEffect, if_pos hf, storageReflects]
        simp [hf]
      · rw [if_neg hf]
        exact storageReflects_applySave _ hf
    | importFile d f t =>
      rw [applyOp, importOp]
      by_cases hv : importDocValid d = true
      · rw [if_pos hv]
        by_cases hd : s.history.any
            (fun x => x.id = (decodeImportDoc d f t).id) = true
        · rw [if_pos hd]
          rw [show ({ s with active := some (decodeImportDoc d f t) } : AppState)
            = ⟨some (decodeImportDoc d f t), s.isGenerating, s.history, s.storage⟩
            from rfl]
          rw [storageReflects_same]
          exact h
        · rw [if_neg hd]
          exact storageReflects_applySave _ (addToHistory_ne_nil _ _)
      · rw [if_neg hv]
        exact h
  · intro id hemp
    rw [deleteOp_history] at hemp
    rw [deleteOp, hemp]
    simp [applySaveEffect]
  · intro id hne
    rw [deleteOp_history] at hne
    rw [deleteOp_history, deleteOp]
    simp [applySaveEffect, hne]

theorem persist_spec_witness :
    storageReflects (applyOp (.remove ("a"))
      ⟨none, false, [⟨("a"), ("A"), ("<p/>"), none, 5⟩],
        some [⟨("a"), ("A"), ("<p/>"), none, 5⟩]⟩) = true := by
  exact (persist_spec (.remove ("a")) _ (by decide)).1

/-- C9: a generation call with no file attached and an empty prompt sends
the fixed default demo prompt — which is not the empty string — and a
call with a file attached (a non-empty base64 payload, which is what any
real file produces) sends the fixed analysis directive regardless of the
user-supplied prompt text. -/
theorem finalPrompt_spec (promptText b : String) (hb : b ≠ ("")) :
    finalPrompt ("") none = defaultDemoPrompt ∧
    defaultDemoPrompt ≠ ("") ∧
    finalPrompt promptText (some b) = fileAnalysisDirective := by
  refine ⟨rfl, by decide, ?_⟩
  simp [finalPrompt, truthyStr, hb]

theorem finalPrompt_spec_witness :
    finalPrompt ("改成蓝色") (some ("QUFB")) = fileAnalysisDirective := by
  exact (finalPrompt_spec ("改成蓝色") ("QUFB") (by decide)).2.2

/-- C10 counterexample: with an absent response text, `updateCode` does
not return `currentHtml` unchanged — the fence cleanup is applied to the
fallback too, so a `currentHtml` that itself carries a fence wrapper
(importable as such) comes back stripped. -/
theorem updateCode_fenced_cex :
    updateCodeOutput none ("```html\n<div></div>```")
      ≠ ("```html\n<div></div>```") := by
  decide

/-- C10 (amended): on an empty or absent response text neither wrapper
throws; `bringToLife` returns the fixed failure placeholder, and
`updateCode` returns the fence cleanup of `currentHtml`, which is
`currentHtml` itself whenever `currentHtml` neither starts nor ends with
a fence (true of every artifact the generator produces, which must start
with a doctype declaration). -/
theorem empty_response_spec (t : Option String) (currentHtml : String)
    (ht : t = none ∨ t = some ("")) :
    bringToLifeOutput t = failPlaceholder ∧
    updateCodeOutput t currentHtml = cleanFences currentHtml ∧
    (startsWithFence currentHtml.data = false →
      endsWithFence currentHtml.data = false →
      updateCodeOutput t currentHtml = currentHtml) := by
  have hjs : ∀ fb : String, jsOr t fb = fb := by
    rcases ht with h | h <;> subst h <;> intro fb <;> simp [jsOr]
  refine ⟨?_, ?_, ?_⟩
  · rw [bringToLifeOutput, hjs]
    decide
  · rw [updateCodeOutput, hjs]
  · intro hs he
    rw [updateCodeOutput, hjs, cleanFences, cleanFencesL_id currentHtml.data hs he]

theorem empty_response_spec_witness :
    updateCodeOutput none ("<p>ok</p>") = ("<p>ok</p>") := by
  exact (empty_response_spec none ("<p>ok</p>") (Or.inl rfl)).2.2
    (by decide) (by decide)
